import Mathlib

/-!
# Verification of the testfixtures fixture-loading engine

A shallow embedding of the Go package `testfixtures` (file `testfixtures.go`).
The database is modelled by an executor oracle deciding which statement
executions fail; `Load` returns the trace of events it performed together
with the error it returns, mirroring the Go control flow statement by
statement.  Helper (dialect) implementations live outside the embedded file;
they are abstracted as a `Helper` record of a quoting function, a parameter
style and a resolved database name, and the integrity / per-table brackets
are modelled from the spec as pass-through brackets that emit trace markers.
-/

set_option linter.unusedVariables false

/-- The three placeholder styles (`paramTypeDollar`, `paramTypeQuestion`,
`paramTypeColon` constants of the Go package). -/
inductive ParamType
  | paramTypeDollar
  | paramTypeQuestion
  | paramTypeColon
deriving DecidableEq, Repr

/-- A scalar value bound into an INSERT.  The payload is an opaque
identity; the three flags model the date/time shape recognizers (see
`isDateTime` below). -/
structure Value where
  dateTimeFlag : Bool
  dateFlag : Bool
  timeFlag : Bool
  payload : String
deriving DecidableEq, Repr

/-- Modelled from the spec: the `isDateTime` recognizer (implemented in a
helper file of the repository that is not under src) recognizes full
datetime values; recognition is modelled as a shape flag carried by the
value. -/
def isDateTime (v : Value) : Bool := v.dateTimeFlag

/-- Modelled from the spec: the `isDate` recognizer (implemented in a helper
file of the repository that is not under src) recognizes date-only values. -/
def isDate (v : Value) : Bool := v.dateFlag

/-- Modelled from the spec: the `isTime` recognizer (implemented in a helper
file of the repository that is not under src) recognizes time-only values. -/
def isTime (v : Value) : Bool := v.timeFlag

/-- A YAML map key (`interface\x7b\x7d` in Go).  The only operation the code
performs on it is the type assertion to `string`, so non-string keys are
opaque apart from a tag. -/
inductive Key
  | str (s : String)
  | nonStr (tag : Nat)
deriving DecidableEq, Repr

/-- The errors `Load` can return: the three exported sentinel errors of the
package, the not-a-test-database error, and opaque database errors coming
back from statement execution. -/
inductive LoadError
  | errNotTestDatabase
  | errWrongCastNotAMap
  | errFileIsNotSliceOrMap
  | errKeyIsNotString
  | dbError (code : Nat)
deriving DecidableEq, Repr

/-- One element of a top-level YAML sequence, or one value of a top-level
YAML mapping: the Go code casts it to `map[interface\x7b\x7d]interface\x7b\x7d`
and fails with `ErrWrongCastNotAMap` when the cast does not apply. -/
inductive YamlItem
  | record (r : List (Key × Value))
  | nonRecord (tag : Nat)
deriving DecidableEq, Repr

/-- The parsed top-level content of a fixture file (the result of
`yaml.Unmarshal` inspected through `reflect`): a sequence, a mapping, or
some other shape (a plain scalar). -/
inductive YamlNode
  | scalar (v : Value)
  | seq (items : List YamlItem)
  | map (entries : List (Key × YamlItem))
deriving DecidableEq, Repr

/-- The dialect helper, abstracted to the three capabilities the embedded
file uses: identifier quoting, the placeholder style, and the resolved
database name (the Go methods take the database handle, which the embedding
elides). -/
structure Helper where
  quoteKeyword : String → String
  paramType : ParamType
  databaseName : String

/-- A fixture file: its base name and its parsed content (`content` holds
the result of the external YAML parse of the raw bytes). -/
structure fixtureFile where
  fileName : String
  content : YamlNode

/-- The executor oracle standing for `tx.Exec`: given the SQL text and the
bound values, it either succeeds (`none`) or fails with an opaque database
error code. -/
def ExecOracle := String → List Value → Option Nat

/-- The observable events of one `Load` call, in execution order. -/
inductive Event
  | dbNameCheck (name : String)
  | beginIntegrity
  | endIntegrity
  | beginTableInsert (table : String)
  | endTableInsert (table : String)
  | execDelete (table : String) (sql : String)
  | execInsert (table : String) (sql : String) (values : List Value)
deriving DecidableEq, Repr

/-- Go `filepath.Ext` on the reversed character list: scan from the end,
stop at a path separator, return the suffix from the final dot. -/
def goExtRev : List Char → List Char → List Char
  | [], _ => []
  | c :: rest, acc =>
    if c = '/' then []
    else if c = '.' then c :: acc
    else goExtRev rest (c :: acc)

/-- Go `filepath.Ext`: the suffix beginning at the final dot of the final
path element, empty when there is no dot. -/
def filepathExt (p : String) : String :=
  ⟨goExtRev p.data.reverse []⟩

/-- Go `strings.Replace(s, old, new, 1)` on character lists: replace the
first occurrence of `old` (an empty `old` matches immediately). -/
def replaceFirst (old new : List Char) : List Char → List Char
  | [] => if old.isEmpty then new else []
  | c :: rest =>
    if old.isPrefixOf (c :: rest) then new ++ (c :: rest).drop old.length
    else c :: replaceFirst old new rest

/-- Go `strings.Replace(s, old, new, 1)`. -/
def stringsReplaceOnce (s old new : String) : String :=
  ⟨replaceFirst old.data new.data s.data⟩

/-- `fixtureFile.fileNameWithoutExtension`:
`strings.Replace(f.fileName, filepath.Ext(f.fileName), "", 1)`. -/
def fixtureFile.fileNameWithoutExtension (f : fixtureFile) : String :=
  stringsReplaceOnce f.fileName (filepathExt f.fileName) ""

/-- The loop body of `fixtureFile.buildInsertSQL`: iterate the record's
key/value pairs, keeping the accumulated column text, value text, 1-based
ordinal `i` and values slice.  Mirrors the Go loop statement by statement:
the separator is appended to both accumulators when the column accumulator
is non-empty, then the key is asserted to be a string, then the quoted
column and the style-dependent placeholder are appended. -/
def buildInsertSQLLoop (h : Helper) :
    List (Key × Value) → String → String → Nat → List Value →
    Except LoadError (String × String × List Value)
  | [], sqlColumns, sqlValues, _, values => .ok (sqlColumns, sqlValues, values)
  | (key, value) :: rest, sqlColumns, sqlValues, i, values =>
    let sep := sqlColumns.length > 0
    let sqlColumns1 := if sep then sqlColumns ++ ", " else sqlColumns
    let sqlValues1 := if sep then sqlValues ++ ", " else sqlValues
    match key with
    | .nonStr _ => .error .errKeyIsNotString
    | .str keyStr =>
      let sqlColumns2 := sqlColumns1 ++ h.quoteKeyword keyStr
      let sqlValues2 := sqlValues1 ++
        (match h.paramType with
         | .paramTypeDollar => "$" ++ toString i
         | .paramTypeQuestion => "?"
         | .paramTypeColon =>
           if isDateTime value then
             "to_date(:" ++ toString i ++ ", \x27YYYY-MM-DD HH24:MI:SS\x27)"
           else if isDate value then
             "to_date(:" ++ toString i ++ ", \x27YYYY-MM-DD\x27)"
           else if isTime value then
             "to_date(:" ++ toString i ++ ", \x27HH24:MI:SS\x27)"
           else ":" ++ toString i)
      buildInsertSQLLoop h rest sqlColumns2 sqlValues2 (i + 1) (values ++ [value])

/-- `fixtureFile.buildInsertSQL`: compile one record into the SQL text
`INSERT INTO <quoted-table> (<columns>) VALUES (<placeholders>)` plus the
values slice, or fail with `ErrKeyIsNotString`. -/
def fixtureFile.buildInsertSQL (f : fixtureFile) (h : Helper)
    (record : List (Key × Value)) : Except LoadError (String × List Value) :=
  match buildInsertSQLLoop h record "" "" 1 [] with
  | .error e => .error e
  | .ok (sqlColumns, sqlValues, values) =>
    .ok ("INSERT INTO " ++ h.quoteKeyword f.fileNameWithoutExtension ++
          " (" ++ sqlColumns ++ ") VALUES (" ++ sqlValues ++ ")", values)

/-- `fixtureFile.delete`: execute `DELETE FROM <quoted-table>`. -/
def fixtureFile.delete (f : fixtureFile) (exec : ExecOracle) (h : Helper) :
    List Event × Option LoadError :=
  let table := f.fileNameWithoutExtension
  let sql := "DELETE FROM " ++ h.quoteKeyword table
  match exec sql [] with
  | some code => ([Event.execDelete table sql], some (.dbError code))
  | none => ([Event.execDelete table sql], none)

/-- The shared loop body of the slice and map cases of
`fixtureFile.insert`: cast each element to a record, compile it, execute
the INSERT, stopping at the first error. -/
def insertItems (f : fixtureFile) (exec : ExecOracle) (h : Helper) :
    List YamlItem → List Event × Option LoadError
  | [] => ([], none)
  | .nonRecord _ :: _ => ([], some .errWrongCastNotAMap)
  | .record r :: rest =>
    match f.buildInsertSQL h r with
    | .error e => ([], some e)
    | .ok sv =>
      match exec sv.1 sv.2 with
      | some code =>
        ([Event.execInsert f.fileNameWithoutExtension sv.1 sv.2],
         some (.dbError code))
      | none =>
        let rec1 := insertItems f exec h rest
        (Event.execInsert f.fileNameWithoutExtension sv.1 sv.2 :: rec1.1,
         rec1.2)

/-- `fixtureFile.insert`: dispatch on the parsed top-level shape of the
fixture content — a sequence inserts its elements in order, a mapping
inserts its values in iteration order, and any other shape fails with
`ErrFileIsNotSliceOrMap`. -/
def fixtureFile.insert (f : fixtureFile) (exec : ExecOracle) (h : Helper) :
    List Event × Option LoadError :=
  match f.content with
  | .seq items => insertItems f exec h items
  | .map entries => insertItems f exec h (entries.map Prod.snd)
  | .scalar _ => ([], some .errFileIsNotSliceOrMap)

/-- Modelled from the spec: `whileInsertOnTable` (the per-table
`aroundTableInsert` hook, implemented by each dialect helper in a
repository file not under src) brackets the inserts for one table and
passes the body's error through; the default is a no-op pass-through.  The
bracket is recorded as a pair of marker events. -/
def whileInsertOnTable (table : String)
    (body : Unit → List Event × Option LoadError) :
    List Event × Option LoadError :=
  let r := body ()
  (Event.beginTableInsert table :: r.1 ++ [Event.endTableInsert table], r.2)

/-- Modelled from the spec: `disableReferentialIntegrity` (implemented by
each dialect helper in a repository file not under src) wraps the whole
delete+insert batch so constraint checks are not enforced during it,
restores enforcement before returning regardless of the body's outcome,
and propagates the body's error.  The bracket is recorded as a pair of
marker events. -/
def disableReferentialIntegrity
    (body : Unit → List Event × Option LoadError) :
    List Event × Option LoadError :=
  let r := body ()
  (Event.beginIntegrity :: r.1 ++ [Event.endIntegrity], r.2)

/-- The body of the `Load` loop for one fixture file: delete all rows,
then run the inserts inside the per-table bracket, stopping at the first
error. -/
def processFile (exec : ExecOracle) (h : Helper) (file : fixtureFile) :
    List Event × Option LoadError :=
  let d := file.delete exec h
  match d.2 with
  | some e => (d.1, some e)
  | none =>
    let ins := whileInsertOnTable file.fileNameWithoutExtension
      (fun _ => file.insert exec h)
    match ins.2 with
    | some e => (d.1 ++ ins.1, some e)
    | none => (d.1 ++ ins.1, none)

/-- The closure passed to `disableReferentialIntegrity` by `Load`: process
every fixture file in set order, stopping at the first error. -/
def processFiles (exec : ExecOracle) (h : Helper) :
    List fixtureFile → List Event × Option LoadError
  | [] => ([], none)
  | file :: rest =>
    let p := processFile exec h file
    match p.2 with
    | some e => (p.1, some e)
    | none =>
      let r := processFiles exec h rest
      (p.1 ++ r.1, r.2)

/-- The `Context` struct: the helper and the fixture files (the database
handle is elided; the executor oracle stands for it). -/
structure Context where
  helper : Helper
  fixturesFiles : List fixtureFile

/-- `Context.Load`: the test-database name check (unless skipped by the
process-wide flag), then the whole delete+insert batch inside the
referential-integrity bracket.  `skipDatabaseNameCheck` is the process-wide
global of the Go package and `dbnameMatch` stands for
`dbnameRegexp.MatchString` (the regexp lives in a repository file not under
src). -/
def Context.Load (c : Context) (skipDatabaseNameCheck : Bool)
    (dbnameMatch : String → Bool) (exec : ExecOracle) :
    List Event × Option LoadError :=
  if !skipDatabaseNameCheck then
    if !dbnameMatch c.helper.databaseName then
      ([Event.dbNameCheck c.helper.databaseName], some .errNotTestDatabase)
    else
      let r := disableReferentialIntegrity
        (fun _ => processFiles exec c.helper c.fixturesFiles)
      (Event.dbNameCheck c.helper.databaseName :: r.1, r.2)
  else
    disableReferentialIntegrity
      (fun _ => processFiles exec c.helper c.fixturesFiles)

/-! ## Specification-side definitions

The following definitions state, in the spec's words, the shapes the claims
assert; the theorems compare them with the operational definitions above. -/

/-- The placeholder the spec prescribes for the i-th bound parameter under
a given style: dollar-numbered, positional question mark, or colon-numbered
with literal-casting for date/time shaped values. -/
def placeholderSpec (pt : ParamType) (i : Nat) (v : Value) : String :=
  match pt with
  | .paramTypeDollar => "$" ++ toString i
  | .paramTypeQuestion => "?"
  | .paramTypeColon =>
    if isDateTime v then
      "to_date(:" ++ toString i ++ ", \x27YYYY-MM-DD HH24:MI:SS\x27)"
    else if isDate v then
      "to_date(:" ++ toString i ++ ", \x27YYYY-MM-DD\x27)"
    else if isTime v then
      "to_date(:" ++ toString i ++ ", \x27HH24:MI:SS\x27)"
    else ":" ++ toString i

/-- The placeholder list for the values of a record, 1-based from `i`. -/
def placeholdersFrom (pt : ParamType) (i : Nat) : List Value → List String
  | [] => []
  | v :: vs => placeholderSpec pt i v :: placeholdersFrom pt (i + 1) vs

/-- Comma-separated list text, as in the column and placeholder lists of an
INSERT statement. -/
def commaJoin : List String → String
  | [] => ""
  | [x] => x
  | x :: y :: xs => x ++ ", " ++ commaJoin (y :: xs)

/-- A record whose keys are all plain strings, written as string pairs. -/
def strRecord (pairs : List (String × Value)) : List (Key × Value) :=
  pairs.map (fun p => (Key.str p.1, p.2))

/-- The top-level items of a fixture file's content, in the order the
insert loop visits them (empty for a non-sequence, non-mapping shape). -/
def itemsOf (f : fixtureFile) : List YamlItem :=
  match f.content with
  | .seq items => items
  | .map entries => entries.map Prod.snd
  | .scalar _ => []

/-- The insert event the i-th item of a fixture file produces when its
compilation succeeds (a junk event otherwise; unused on successful runs). -/
def itemInsertEvent (h : Helper) (f : fixtureFile) (it : YamlItem) : Event :=
  match it with
  | .record r =>
    match f.buildInsertSQL h r with
    | .ok sv => Event.execInsert f.fileNameWithoutExtension sv.1 sv.2
    | .error _ => Event.execInsert f.fileNameWithoutExtension "" []
  | .nonRecord _ => Event.execInsert f.fileNameWithoutExtension "" []

/-- The event sequence the spec prescribes for one fixture file of a
successful load: the unconditional delete, then all the inserts inside the
per-table bracket. -/
def expectedFileTrace (exec : ExecOracle) (h : Helper) (f : fixtureFile) :
    List Event :=
  Event.execDelete f.fileNameWithoutExtension
      ("DELETE FROM " ++ h.quoteKeyword f.fileNameWithoutExtension)
    :: Event.beginTableInsert f.fileNameWithoutExtension
    :: ((itemsOf f).map (itemInsertEvent h f)
        ++ [Event.endTableInsert f.fileNameWithoutExtension])

/-- The event sequence the spec prescribes for a successful `Load` with the
name check enabled: the check, then every fixture file in set order inside
a single referential-integrity bracket. -/
def expectedLoadTrace (exec : ExecOracle) (c : Context) : List Event :=
  Event.dbNameCheck c.helper.databaseName
    :: Event.beginIntegrity
    :: ((c.fixturesFiles.flatMap (expectedFileTrace exec c.helper))
        ++ [Event.endIntegrity])

/-- Stripping the extension from a file name: the name with the
`filepathExt` suffix removed from its end. -/
def stripExtSpec (p : String) : String :=
  ⟨p.data.take (p.data.length - (filepathExt p).data.length)⟩

/-- A database row as the load produces it: the INSERT text and its bound
values. -/
abbrev Row := String × List Value

/-- The database state: each table's rows. -/
def DbState := String → List Row

/-- The effect of one event on the database: a delete empties its table, an
insert appends a row to its table, everything else leaves the state
unchanged. -/
def applyEvent (s : DbState) : Event → DbState
  | .execDelete t _ => fun u => if u = t then [] else s u
  | .execInsert t sql vals => fun u => if u = t then s u ++ [(sql, vals)] else s u
  | _ => s

/-- The effect of a trace on the database. -/
def applyEvents (s : DbState) (tr : List Event) : DbState :=
  tr.foldl applyEvent s

/-- The contents of one table after a trace, computed from that table's
rows alone. -/
def tableContents (t : String) (rows : List Row) : List Event → List Row
  | [] => rows
  | .execDelete u _ :: tr => tableContents t (if u = t then [] else rows) tr
  | .execInsert u sql vals :: tr =>
    tableContents t (if u = t then rows ++ [(sql, vals)] else rows) tr
  | .dbNameCheck _ :: tr => tableContents t rows tr
  | .beginIntegrity :: tr => tableContents t rows tr
  | .endIntegrity :: tr => tableContents t rows tr
  | .beginTableInsert _ :: tr => tableContents t rows tr
  | .endTableInsert _ :: tr => tableContents t rows tr

/-- Whether an event is an INSERT execution. -/
def Event.isInsert : Event → Bool
  | .execInsert _ _ _ => true
  | _ => false

/-- Whether an event is a statement execution (a delete or an insert). -/
def Event.isExec : Event → Bool
  | .execDelete _ _ => true
  | .execInsert _ _ _ => true
  | _ => false

/-- The row transformation one event applies to one table. -/
def rowsAfter (t : String) (rows : List Row) : Event → List Row
  | .execDelete u _ => if u = t then [] else rows
  | .execInsert u sql vals => if u = t then rows ++ [(sql, vals)] else rows
  | _ => rows

/-! ## Concrete instances used by the witnesses -/

/-- A concrete helper: angle-bracket quoting, dollar placeholders, a
test-named database. -/
def wHelper : Helper :=
  Helper.mk (fun s => "<" ++ s ++ ">") ParamType.paramTypeDollar "db_test"

/-- A concrete helper with the colon placeholder style. -/
def wColonHelper : Helper :=
  Helper.mk (fun s => "<" ++ s ++ ">") ParamType.paramTypeColon "db_test"

/-- A concrete plain value. -/
def wValue : Value := Value.mk false false false "1"

/-- A value recognized as a full datetime (and also as a date and a time,
to exercise precedence). -/
def wDT : Value := Value.mk true true true "2016-01-01 12:30:12"

/-- A value recognized as a date only. -/
def wD : Value := Value.mk false true false "2016-01-01"

/-- A value recognized as a time only. -/
def wT : Value := Value.mk false false true "12:30:12"

/-- A concrete fixture file with one record. -/
def wFile : fixtureFile :=
  fixtureFile.mk "posts.yml"
    (YamlNode.seq [YamlItem.record [(Key.str "id", wValue)]])

/-- A concrete fixture file whose content is a plain scalar. -/
def wScalarFile : fixtureFile :=
  fixtureFile.mk "posts.yml" (YamlNode.scalar wValue)

/-- A concrete context over `wFile`. -/
def wCtx : Context := Context.mk wHelper [wFile]

/-- An executor that always succeeds. -/
def wExec : ExecOracle := fun _ _ => none

/-- An executor that fails the delete of the posts table. -/
def wExecFail : ExecOracle :=
  fun sql _ => if sql = "DELETE FROM <posts>" then some 3 else none

/-- The trace of a successful load of `wCtx`. -/
def wTrace : List Event :=
  [Event.dbNameCheck "db_test", Event.beginIntegrity,
   Event.execDelete "posts" "DELETE FROM <posts>",
   Event.beginTableInsert "posts",
   Event.execInsert "posts" "INSERT INTO <posts> (<id>) VALUES ($1)" [wValue],
   Event.endTableInsert "posts",
   Event.endIntegrity]

/-- A concrete two-column all-string-keys record. -/
def wPairs : List (String × Value) :=
  [("id", wValue), ("title", Value.mk false false false "a title")]

/-- A concrete record with a non-string key. -/
def wBadRecord : List (Key × Value) :=
  [(Key.str "id", wValue), (Key.nonStr 0, wValue)]

/-- The text appended after the first element of a comma-separated list. -/
def joinSep : List String → String
  | [] => ""
  | x :: xs => ", " ++ x ++ joinSep xs

/-! ## Lemmas -/

theorem strAppendEmpty (s : String) : s ++ "" = s := by
  cases s with
  | mk data => show String.mk (data ++ []) = String.mk data; rw [List.append_nil]

theorem strAppendAssoc (a b c : String) : a ++ b ++ c = a ++ (b ++ c) := by
  cases a with
  | mk da =>
    cases b with
    | mk db =>
      cases c with
      | mk dc =>
        show String.mk (da ++ db ++ dc) = String.mk (da ++ (db ++ dc))
        rw [List.append_assoc]

theorem strLengthAppendPos (a b : String) (h : 0 < a.length) :
    0 < (a ++ b).length := by
  cases a with
  | mk da =>
    cases b with
    | mk db =>
      show 0 < (da ++ db).length
      simp only [List.length_append]
      exact Nat.lt_of_lt_of_le h (Nat.le_add_right _ _)

theorem commaJoin_cons (x : String) (xs : List String) :
    commaJoin (x :: xs) = x ++ joinSep xs := by
  cases xs with
  | nil => simp [commaJoin, joinSep, strAppendEmpty]
  | cons y ys =>
    rw [show commaJoin (x :: y :: ys) = x ++ ", " ++ commaJoin (y :: ys) from rfl,
        commaJoin_cons y ys, joinSep, strAppendAssoc, strAppendAssoc]

/-- The placeholder text the loop builds for ordinal `i` and value `v` is
exactly the spec-side placeholder. -/
theorem loopPlaceholder_eq (pt : ParamType) (i : Nat) (v : Value) :
    (match pt with
     | ParamType.paramTypeDollar => "$" ++ toString i
     | ParamType.paramTypeQuestion => "?"
     | ParamType.paramTypeColon =>
       if isDateTime v then
         "to_date(:" ++ toString i ++ ", \x27YYYY-MM-DD HH24:MI:SS\x27)"
       else if isDate v then
         "to_date(:" ++ toString i ++ ", \x27YYYY-MM-DD\x27)"
       else if isTime v then
         "to_date(:" ++ toString i ++ ", \x27HH24:MI:SS\x27)"
       else ":" ++ toString i) = placeholderSpec pt i v := by
  cases pt <;> rfl

/-- The loop on an all-string-keys record with a non-empty column
accumulator: it appends the separated columns, placeholders and values. -/
theorem buildLoop_str (h : Helper) (pairs : List (String × Value)) :
    ∀ (sqlC sqlV : String) (i : Nat) (vals : List Value),
    0 < sqlC.length →
    buildInsertSQLLoop h (strRecord pairs) sqlC sqlV i vals =
      .ok (sqlC ++ joinSep (pairs.map (fun p => h.quoteKeyword p.1)),
           sqlV ++ joinSep (placeholdersFrom h.paramType i (pairs.map Prod.snd)),
           vals ++ pairs.map Prod.snd) := by
  induction pairs with
  | nil =>
    intro sqlC sqlV i vals _
    simp [strRecord, buildInsertSQLLoop, joinSep, placeholdersFrom, strAppendEmpty]
  | cons p rest ih =>
    intro sqlC sqlV i vals hC
    have step : buildInsertSQLLoop h (strRecord (p :: rest)) sqlC sqlV i vals =
        buildInsertSQLLoop h (strRecord rest) (sqlC ++ ", " ++ h.quoteKeyword p.1)
          (sqlV ++ ", " ++ placeholderSpec h.paramType i p.2) (i + 1)
          (vals ++ [p.2]) := by
      show buildInsertSQLLoop h ((Key.str p.1, p.2) :: strRecord rest) sqlC sqlV i vals = _
      rw [buildInsertSQLLoop]
      simp only [if_pos hC, loopPlaceholder_eq]
    rw [step, ih _ _ _ _ (strLengthAppendPos _ _ (strLengthAppendPos _ _ hC))]
    simp only [List.map_cons, joinSep, placeholdersFrom, strAppendAssoc,
      List.append_assoc, List.singleton_append]

/-- `buildInsertSQL` on a record with only string keys, provided the first
quoted column is non-empty (dialect quoting always wraps the name in quote
characters): the claimed INSERT shape, with columns, placeholders and
values corresponding position for position. -/
theorem buildInsertSQL_strRecord (h : Helper) (f : fixtureFile)
    (pairs : List (String × Value))
    (hq : ∀ p ∈ pairs.take 1, 0 < (h.quoteKeyword p.1).length) :
    f.buildInsertSQL h (strRecord pairs) =
      .ok ("INSERT INTO " ++ h.quoteKeyword f.fileNameWithoutExtension ++
            " (" ++ commaJoin (pairs.map (fun p => h.quoteKeyword p.1)) ++
            ") VALUES (" ++
            commaJoin (placeholdersFrom h.paramType 1 (pairs.map Prod.snd)) ++
            ")",
           pairs.map Prod.snd) := by
  cases pairs with
  | nil => rfl
  | cons p rest =>
    have hq1 : 0 < (h.quoteKeyword p.1).length := hq p (by simp)
    have step : buildInsertSQLLoop h (strRecord (p :: rest)) "" "" 1 [] =
        buildInsertSQLLoop h (strRecord rest) (h.quoteKeyword p.1)
          (placeholderSpec h.paramType 1 p.2) 2 [p.2] := rfl
    unfold fixtureFile.buildInsertSQL
    rw [step, buildLoop_str h rest _ _ 2 [p.2] hq1]
    simp only [List.map_cons, commaJoin_cons, placeholdersFrom, List.singleton_append]

/-- Equation: the insert loop on a record whose compilation and execution
both succeed. -/
theorem insertItems_record_ok (f : fixtureFile) (exec : ExecOracle) (h : Helper)
    (r : List (Key × Value)) (rest : List YamlItem) (sv : String × List Value)
    (hb : f.buildInsertSQL h r = .ok sv) (hx : exec sv.1 sv.2 = none) :
    insertItems f exec h (.record r :: rest) =
      (Event.execInsert f.fileNameWithoutExtension sv.1 sv.2 ::
        (insertItems f exec h rest).1,
       (insertItems f exec h rest).2) := by
  rw [insertItems, hb]
  dsimp only
  rw [hx]

/-- Equation: the insert loop on a record whose compilation fails. -/
theorem insertItems_record_compileFail (f : fixtureFile) (exec : ExecOracle)
    (h : Helper) (r : List (Key × Value)) (rest : List YamlItem) (e : LoadError)
    (hb : f.buildInsertSQL h r = .error e) :
    insertItems f exec h (.record r :: rest) = ([], some e) := by
  rw [insertItems, hb]

/-- Equation: the insert loop on a record whose execution fails. -/
theorem insertItems_record_execFail (f : fixtureFile) (exec : ExecOracle)
    (h : Helper) (r : List (Key × Value)) (rest : List YamlItem)
    (sv : String × List Value) (code : Nat)
    (hb : f.buildInsertSQL h r = .ok sv) (hx : exec sv.1 sv.2 = some code) :
    insertItems f exec h (.record r :: rest) =
      ([Event.execInsert f.fileNameWithoutExtension sv.1 sv.2],
       some (.dbError code)) := by
  rw [insertItems, hb]
  dsimp only
  rw [hx]

/-- Equation: `insert` on sequence-shaped content. -/
theorem insert_seq (f : fixtureFile) (exec : ExecOracle) (h : Helper)
    (items : List YamlItem) (hc : f.content = .seq items) :
    f.insert exec h = insertItems f exec h items := by
  unfold fixtureFile.insert
  rw [hc]

/-- Equation: `insert` on mapping-shaped content. -/
theorem insert_map (f : fixtureFile) (exec : ExecOracle) (h : Helper)
    (entries : List (Key × YamlItem)) (hc : f.content = .map entries) :
    f.insert exec h = insertItems f exec h (entries.map Prod.snd) := by
  unfold fixtureFile.insert
  rw [hc]

/-- Equation: `insert` on scalar-shaped content. -/
theorem insert_scalar (f : fixtureFile) (exec : ExecOracle) (h : Helper)
    (v : Value) (hc : f.content = .scalar v) :
    f.insert exec h = ([], some .errFileIsNotSliceOrMap) := by
  unfold fixtureFile.insert
  rw [hc]

/-- Equation: `delete` always emits its one delete event, and fails exactly
when the executor fails it. -/
theorem delete_eq (f : fixtureFile) (exec : ExecOracle) (h : Helper) :
    f.delete exec h =
      ([Event.execDelete f.fileNameWithoutExtension
          ("DELETE FROM " ++ h.quoteKeyword f.fileNameWithoutExtension)],
       match exec ("DELETE FROM " ++ h.quoteKeyword f.fileNameWithoutExtension) []
       with
       | some code => some (LoadError.dbError code)
       | none => none) := by
  simp only [fixtureFile.delete]
  cases exec ("DELETE FROM " ++ h.quoteKeyword f.fileNameWithoutExtension) [] <;>
    rfl

/-- Equation: the per-file step when its delete succeeds. -/
theorem processFile_delete_ok (exec : ExecOracle) (h : Helper) (f : fixtureFile)
    (hx : exec ("DELETE FROM " ++ h.quoteKeyword f.fileNameWithoutExtension) []
      = none) :
    processFile exec h f =
      (Event.execDelete f.fileNameWithoutExtension
          ("DELETE FROM " ++ h.quoteKeyword f.fileNameWithoutExtension)
        :: Event.beginTableInsert f.fileNameWithoutExtension
        :: ((f.insert exec h).1 ++ [Event.endTableInsert f.fileNameWithoutExtension]),
       (f.insert exec h).2) := by
  unfold processFile
  rw [delete_eq, hx]
  dsimp only [whileInsertOnTable]
  cases hr : (f.insert exec h).2 <;> simp [hr]

/-- Equation: the per-file step when its delete fails. -/
theorem processFile_delete_fail (exec : ExecOracle) (h : Helper)
    (f : fixtureFile) (code : Nat)
    (hx : exec ("DELETE FROM " ++ h.quoteKeyword f.fileNameWithoutExtension) []
      = some code) :
    processFile exec h f =
      ([Event.execDelete f.fileNameWithoutExtension
          ("DELETE FROM " ++ h.quoteKeyword f.fileNameWithoutExtension)],
       some (.dbError code)) := by
  unfold processFile
  rw [delete_eq, hx]

/-- A successful run of the insert loop produces exactly one insert event
per item, each with the compiled SQL and values. -/
theorem insertItems_ok_trace (f : fixtureFile) (exec : ExecOracle) (h : Helper) :
    ∀ (items : List YamlItem) (tr : List Event),
    insertItems f exec h items = (tr, none) →
    tr = items.map (itemInsertEvent h f) := by
  intro items
  induction items with
  | nil =>
    intro tr hInst
    have := congrArg Prod.fst hInst
    simp [insertItems] at this
    simp [← this]
  | cons item rest ih =>
    intro tr hInst
    cases item with
    | nonRecord tag =>
      have := congrArg Prod.snd hInst
      simp [insertItems] at this
    | record r =>
      cases hb : f.buildInsertSQL h r with
      | error e =>
        rw [insertItems_record_compileFail f exec h r rest e hb] at hInst
        have := congrArg Prod.snd hInst
        simp at this
      | ok sv =>
        cases hx : exec sv.1 sv.2 with
        | some code =>
          rw [insertItems_record_execFail f exec h r rest sv code hb hx] at hInst
          have := congrArg Prod.snd hInst
          simp at this
        | none =>
          rw [insertItems_record_ok f exec h r rest sv hb hx] at hInst
          have htr := congrArg Prod.fst hInst
          have hres := congrArg Prod.snd hInst
          simp only at htr hres
          rw [List.map_cons, itemInsertEvent, hb, ← htr,
            ih (insertItems f exec h rest).1 (Prod.ext rfl hres)]

/-- A successful run of one fixture file produces exactly the expected
delete / bracketed-inserts event sequence. -/
theorem processFile_ok_trace (exec : ExecOracle) (h : Helper) (f : fixtureFile)
    (tr : List Event) (hp : processFile exec h f = (tr, none)) :
    tr = expectedFileTrace exec h f := by
  cases hx : exec ("DELETE FROM " ++ h.quoteKeyword f.fileNameWithoutExtension) []
  with
  | some code =>
    rw [processFile_delete_fail exec h f code hx] at hp
    have := congrArg Prod.snd hp
    simp at this
  | none =>
    rw [processFile_delete_ok exec h f hx] at hp
    have htr := congrArg Prod.fst hp
    have hres := congrArg Prod.snd hp
    simp only at htr hres
    have hitems : (f.insert exec h).1 = (itemsOf f).map (itemInsertEvent h f) := by
      cases hc : f.content with
      | seq items =>
        rw [insert_seq f exec h items hc]
        have : insertItems f exec h items = ((insertItems f exec h items).1, none) := by
          refine Prod.ext rfl ?_
          rw [← insert_seq f exec h items hc]
          exact hres
        rw [insertItems_ok_trace f exec h items _ this]
        simp [itemsOf, hc]
      | map entries =>
        rw [insert_map f exec h entries hc]
        have : insertItems f exec h (entries.map Prod.snd)
            = ((insertItems f exec h (entries.map Prod.snd)).1, none) := by
          refine Prod.ext rfl ?_
          rw [← insert_map f exec h entries hc]
          exact hres
        rw [insertItems_ok_trace f exec h (entries.map Prod.snd) _ this]
        simp [itemsOf, hc]
      | scalar v =>
        rw [insert_scalar f exec h v hc] at hres
        simp at hres
    rw [← htr, hitems, expectedFileTrace]

/-- A successful run of the whole fixture-file loop produces the expected
per-file traces concatenated in set order. -/
theorem processFiles_ok_trace (exec : ExecOracle) (h : Helper) :
    ∀ (files : List fixtureFile) (tr : List Event),
    processFiles exec h files = (tr, none) →
    tr = files.flatMap (expectedFileTrace exec h) := by
  intro files
  induction files with
  | nil =>
    intro tr hp
    have := congrArg Prod.fst hp
    simp [processFiles] at this
    simp [← this]
  | cons f rest ih =>
    intro tr hp
    rw [processFiles] at hp
    cases hf : processFile exec h f with
    | mk ftr fres =>
      rw [hf] at hp
      cases fres with
      | some e =>
        have := congrArg Prod.snd hp
        simp at this
      | none =>
        have htr := congrArg Prod.fst hp
        have hres := congrArg Prod.snd hp
        simp only at htr hres
        rw [List.flatMap_cons, ← htr,
          processFile_ok_trace exec h f ftr hf,
          ih (processFiles exec h rest).1 (Prod.ext rfl hres)]

/-- Equation: `Load` with the check enabled and a matching database name. -/
theorem load_eq_checked (c : Context) (m : String → Bool) (exec : ExecOracle)
    (hm : m c.helper.databaseName = true) :
    c.Load false m exec =
      (Event.dbNameCheck c.helper.databaseName
        :: Event.beginIntegrity
        :: ((processFiles exec c.helper c.fixturesFiles).1
            ++ [Event.endIntegrity]),
       (processFiles exec c.helper c.fixturesFiles).2) := by
  unfold Context.Load
  rw [hm]
  rfl

/-- Equation: `Load` with the check enabled and a non-matching name. -/
theorem load_eq_checkFail (c : Context) (m : String → Bool) (exec : ExecOracle)
    (hm : m c.helper.databaseName = false) :
    c.Load false m exec =
      ([Event.dbNameCheck c.helper.databaseName], some .errNotTestDatabase) := by
  unfold Context.Load
  rw [hm]
  rfl

theorem isPrefixOf_self (l : List Char) : l.isPrefixOf l = true := by
  induction l with
  | nil => rfl
  | cons c cs ih => simp [List.isPrefixOf, ih]

/-- Removing the first occurrence of `old` from `stem ++ old`: when `old`
does not occur starting anywhere inside `stem`, the result is `stem`. -/
theorem replaceFirst_stem (old : List Char) :
    ∀ (stem : List Char),
    (∀ i, i < stem.length → old.isPrefixOf ((stem ++ old).drop i) = false) →
    replaceFirst old [] (stem ++ old) = stem := by
  intro stem
  induction stem with
  | nil =>
    intro _
    cases old with
    | nil => rfl
    | cons c cs =>
      show replaceFirst (c :: cs) [] (c :: cs) = []
      rw [replaceFirst, if_pos (isPrefixOf_self (c :: cs))]
      simp
  | cons c stem1 ih =>
    intro hocc
    show replaceFirst old [] (c :: (stem1 ++ old)) = c :: stem1
    have h0 : old.isPrefixOf (c :: (stem1 ++ old)) = false := by
      have := hocc 0 (by simp)
      simpa using this
    rw [replaceFirst, if_neg (by simp [h0])]
    have : replaceFirst old [] (stem1 ++ old) = stem1 := by
      apply ih
      intro i hi
      have := hocc (i + 1) (by simpa using Nat.succ_lt_succ hi)
      simpa using this
    rw [this]

/-- The compile loop fails with the key error as soon as any key of the
record is not a string, whatever the accumulator state. -/
theorem buildLoop_nonstr (h : Helper) :
    ∀ (record : List (Key × Value)) (tag : Nat),
    Key.nonStr tag ∈ record.map Prod.fst →
    ∀ (sqlC sqlV : String) (i : Nat) (vals : List Value),
    buildInsertSQLLoop h record sqlC sqlV i vals = .error .errKeyIsNotString := by
  intro record
  induction record with
  | nil => intro tag hmem; simp at hmem
  | cons p rest ih =>
    intro tag hmem sqlC sqlV i vals
    obtain ⟨k, v⟩ := p
    cases k with
    | nonStr t2 =>
      rw [buildInsertSQLLoop]
    | str s =>
      rw [buildInsertSQLLoop]
      rcases List.mem_cons.mp hmem with heq | htl
      · exact absurd heq (by simp)
      · exact ih tag htl _ _ _ _

/-- `buildInsertSQL` fails with `ErrKeyIsNotString` whenever some key of
the record is not a string. -/
theorem buildInsertSQL_nonstr (h : Helper) (f : fixtureFile)
    (record : List (Key × Value)) (tag : Nat)
    (hmem : Key.nonStr tag ∈ record.map Prod.fst) :
    f.buildInsertSQL h record = .error .errKeyIsNotString := by
  unfold fixtureFile.buildInsertSQL
  rw [buildLoop_nonstr h record tag hmem]

/-- Appending a record that fails to compile after items that all succeed:
the loop keeps exactly the successful items' trace and stops with the
compile error — the failing record and everything after it execute
nothing. -/
theorem insertItems_append_fail (f : fixtureFile) (exec : ExecOracle)
    (h : Helper) (record : List (Key × Value)) (e0 : LoadError)
    (hbuild : f.buildInsertSQL h record = .error e0) :
    ∀ (items1 items2 : List YamlItem) (tr1 : List Event),
    insertItems f exec h items1 = (tr1, none) →
    insertItems f exec h (items1 ++ YamlItem.record record :: items2)
      = (tr1, some e0) := by
  intro items1
  induction items1 with
  | nil =>
    intro items2 tr1 h1
    have htr : tr1 = [] := by
      have := congrArg Prod.fst h1
      simp [insertItems] at this
      simp [← this]
    rw [htr, List.nil_append,
      insertItems_record_compileFail f exec h record items2 e0 hbuild]
  | cons item rest ih =>
    intro items2 tr1 h1
    cases item with
    | nonRecord tag =>
      have := congrArg Prod.snd h1
      simp [insertItems] at this
    | record r =>
      cases hb : f.buildInsertSQL h r with
      | error e =>
        rw [insertItems_record_compileFail f exec h r rest e hb] at h1
        have := congrArg Prod.snd h1
        simp at this
      | ok sv =>
        cases hx : exec sv.1 sv.2 with
        | some code =>
          rw [insertItems_record_execFail f exec h r rest sv code hb hx] at h1
          have := congrArg Prod.snd h1
          simp at this
        | none =>
          rw [insertItems_record_ok f exec h r rest sv hb hx] at h1
          have htr := congrArg Prod.fst h1
          have hres := congrArg Prod.snd h1
          simp only at htr hres
          rw [List.cons_append,
            insertItems_record_ok f exec h r
              (rest ++ YamlItem.record record :: items2) sv hb hx,
            ih items2 (insertItems f exec h rest).1 (Prod.ext rfl hres)]
          rw [← htr]

/-- Every item event is an INSERT execution. -/
theorem itemInsertEvent_isInsert (h : Helper) (f : fixtureFile)
    (it : YamlItem) : (itemInsertEvent h f it).isInsert = true := by
  cases it with
  | nonRecord tag => rfl
  | record r =>
    cases hb : f.buildInsertSQL h r <;> simp [itemInsertEvent, hb, Event.isInsert]

/-- Filtering a prefix of item events for inserts keeps it unchanged. -/
theorem filter_isInsert_take_map (h : Helper) (f : fixtureFile)
    (l : List YamlItem) (k : Nat) :
    ((l.map (itemInsertEvent h f)).take k).filter Event.isInsert
      = (l.map (itemInsertEvent h f)).take k := by
  apply List.filter_eq_self.mpr
  intro e he
  have hmem : e ∈ l.map (itemInsertEvent h f) := List.mem_of_mem_take he
  obtain ⟨it, -, rfl⟩ := List.mem_map.mp hmem
  exact itemInsertEvent_isInsert h f it

/-- The insert loop's trace is always a prefix of the full item-event
list: once a record fails, no later record is inserted. -/
theorem insertItems_trace_take (f : fixtureFile) (exec : ExecOracle)
    (h : Helper) :
    ∀ (items : List YamlItem),
    ∃ k, (insertItems f exec h items).1
      = (items.map (itemInsertEvent h f)).take k := by
  intro items
  induction items with
  | nil => exact ⟨0, rfl⟩
  | cons item rest ih =>
    cases item with
    | nonRecord tag => exact ⟨0, by simp [insertItems]⟩
    | record r =>
      cases hb : f.buildInsertSQL h r with
      | error e =>
        exact ⟨0, by simp [insertItems_record_compileFail f exec h r rest e hb]⟩
      | ok sv =>
        cases hx : exec sv.1 sv.2 with
        | some code =>
          refine ⟨1, ?_⟩
          rw [insertItems_record_execFail f exec h r rest sv code hb hx]
          simp [itemInsertEvent, hb]
        | none =>
          obtain ⟨k, hk⟩ := ih
          refine ⟨k + 1, ?_⟩
          rw [insertItems_record_ok f exec h r rest sv hb hx]
          simp only [List.map_cons, List.take_succ_cons]
          rw [hk, itemInsertEvent, hb]

/-- A failing per-file step inserts only a prefix of the file's records:
the failing record and everything after it are not inserted. -/
theorem processFile_fail_inserts (exec : ExecOracle) (h : Helper)
    (f : fixtureFile) (tr : List Event) (e : LoadError)
    (hp : processFile exec h f = (tr, some e)) :
    ∃ k, tr.filter Event.isInsert
      = ((itemsOf f).map (itemInsertEvent h f)).take k := by
  cases hx : exec ("DELETE FROM " ++ h.quoteKeyword f.fileNameWithoutExtension) []
  with
  | some code =>
    rw [processFile_delete_fail exec h f code hx] at hp
    have htr := congrArg Prod.fst hp
    simp only at htr
    exact ⟨0, by rw [← htr]; rfl⟩
  | none =>
    rw [processFile_delete_ok exec h f hx] at hp
    have htr := congrArg Prod.fst hp
    simp only at htr
    have hfilter : tr.filter Event.isInsert
        = ((f.insert exec h).1).filter Event.isInsert := by
      rw [← htr]
      simp [List.filter_append, Event.isInsert]
    cases hc : f.content with
    | scalar v =>
      refine ⟨0, ?_⟩
      rw [hfilter, insert_scalar f exec h v hc]
      rfl
    | seq items =>
      obtain ⟨k, hk⟩ := insertItems_trace_take f exec h items
      refine ⟨k, ?_⟩
      rw [hfilter, insert_seq f exec h items hc, hk,
        filter_isInsert_take_map]
      simp [itemsOf, hc]
    | map entries =>
      obtain ⟨k, hk⟩ := insertItems_trace_take f exec h (entries.map Prod.snd)
      refine ⟨k, ?_⟩
      rw [hfilter, insert_map f exec h entries hc, hk,
        filter_isInsert_take_map]
      simp [itemsOf, hc]

/-- Equation: the fixture-file loop when the first file succeeds. -/
theorem processFiles_cons_ok (exec : ExecOracle) (h : Helper)
    (f : fixtureFile) (rest : List fixtureFile)
    (hf2 : (processFile exec h f).2 = none) :
    processFiles exec h (f :: rest) =
      ((processFile exec h f).1 ++ (processFiles exec h rest).1,
       (processFiles exec h rest).2) := by
  conv =>
    lhs
    rw [processFiles]
  dsimp only
  rw [hf2]

/-- Equation: the fixture-file loop when the first file fails. -/
theorem processFiles_cons_fail (exec : ExecOracle) (h : Helper)
    (f : fixtureFile) (rest : List fixtureFile) (e : LoadError)
    (hf2 : (processFile exec h f).2 = some e) :
    processFiles exec h (f :: rest) = ((processFile exec h f).1, some e) := by
  unfold processFiles
  dsimp only
  rw [hf2]

/-- A failing fixture-file loop splits the set at the first failing file:
every earlier file succeeded, the returned error is the failing file's
error, and the trace contains nothing from any later file. -/
theorem processFiles_fail (exec : ExecOracle) (h : Helper) :
    ∀ (files : List fixtureFile) (tr : List Event) (e : LoadError),
    processFiles exec h files = (tr, some e) →
    ∃ pre fi post trF,
      files = pre ++ fi :: post ∧
      (∀ g ∈ pre, (processFile exec h g).2 = none) ∧
      processFile exec h fi = (trF, some e) ∧
      tr = pre.flatMap (expectedFileTrace exec h) ++ trF := by
  intro files
  induction files with
  | nil =>
    intro tr e hp
    have := congrArg Prod.snd hp
    simp [processFiles] at this
  | cons f rest ih =>
    intro tr e hp
    cases hsnd : (processFile exec h f).2 with
    | some e0 =>
      rw [processFiles_cons_fail exec h f rest e0 hsnd] at hp
      have htr := congrArg Prod.fst hp
      have hres := congrArg Prod.snd hp
      simp only [Option.some.injEq] at htr hres
      refine ⟨[], f, rest, (processFile exec h f).1, rfl, by simp,
        Prod.ext rfl (by rw [hsnd, hres]), by simp [← htr]⟩
    | none =>
      rw [processFiles_cons_ok exec h f rest hsnd] at hp
      have htr := congrArg Prod.fst hp
      have hres := congrArg Prod.snd hp
      simp only at htr hres
      obtain ⟨pre, fi, post, trF, hfiles, hpre, hfi, htr2⟩ :=
        ih (processFiles exec h rest).1 e (Prod.ext rfl hres)
      refine ⟨f :: pre, fi, post, trF, by rw [List.cons_append, hfiles], ?_,
        hfi, ?_⟩
      · intro g hg
        rcases List.mem_cons.mp hg with hgf | hgp
        · rw [hgf]; exact hsnd
        · exact hpre g hgp
      · rw [← htr, htr2, List.flatMap_cons,
          processFile_ok_trace exec h f (processFile exec h f).1
            (Prod.ext rfl hsnd), List.append_assoc]

/-- `applyEvents` acts tablewise: a table's final contents depend only on
that table's initial rows. -/
theorem applyEvents_tableContents :
    ∀ (tr : List Event) (s : DbState) (t : String),
    applyEvents s tr t = tableContents t (s t) tr := by
  intro tr
  induction tr with
  | nil => intro s t; rfl
  | cons e tr ih =>
    intro s t
    show applyEvents (applyEvent s e) tr t = _
    rw [ih]
    cases e with
    | execDelete u sql =>
      show tableContents t (if t = u then [] else s t) tr
        = tableContents t (if u = t then [] else s t) tr
      rcases eq_or_ne t u with hteq | htne
      · simp [hteq]
      · simp [htne, Ne.symm htne]
    | execInsert u sql vals =>
      show tableContents t (if t = u then s t ++ [(sql, vals)] else s t) tr
        = tableContents t (if u = t then s t ++ [(sql, vals)] else s t) tr
      rcases eq_or_ne t u with hteq | htne
      · simp [hteq]
      · simp [htne, Ne.symm htne]
    | dbNameCheck n => rfl
    | beginIntegrity => rfl
    | endIntegrity => rfl
    | beginTableInsert u => rfl
    | endTableInsert u => rfl

theorem tableContents_cons (t : String) (rows : List Row) (e : Event)
    (tr : List Event) :
    tableContents t rows (e :: tr) = tableContents t (rowsAfter t rows e) tr := by
  cases e <;> rfl

/-- Once a trace deletes a table, that table's final contents no longer
depend on its initial rows. -/
theorem tableContents_indep (t : String) :
    ∀ (tr : List Event), (∃ sql, Event.execDelete t sql ∈ tr) →
    ∀ (rows1 rows2 : List Row),
    tableContents t rows1 tr = tableContents t rows2 tr := by
  intro tr
  induction tr with
  | nil =>
    rintro ⟨sql, hmem⟩
    simp at hmem
  | cons e tr ih =>
    rintro ⟨sql, hmem⟩ rows1 rows2
    rcases List.mem_cons.mp hmem with heq | htl
    · rw [tableContents_cons, tableContents_cons, ← heq]
      simp [rowsAfter]
    · rw [tableContents_cons, tableContents_cons]
      exact ih ⟨sql, htl⟩ _ _

/-- A successful `Load` with the name check enabled produces exactly the
expected full trace. -/
theorem load_ok_trace (c : Context) (m : String → Bool) (exec : ExecOracle)
    (tr : List Event) (hL : c.Load false m exec = (tr, none)) :
    tr = expectedLoadTrace exec c := by
  cases hm : m c.helper.databaseName with
  | false =>
    rw [load_eq_checkFail c m exec hm] at hL
    have := congrArg Prod.snd hL
    simp at this
  | true =>
    rw [load_eq_checked c m exec hm] at hL
    have htr := congrArg Prod.fst hL
    have hres := congrArg Prod.snd hL
    simp only at htr hres
    rw [expectedLoadTrace, ← htr,
      processFiles_ok_trace exec c.helper c.fixturesFiles
        (processFiles exec c.helper c.fixturesFiles).1 (Prod.ext rfl hres)]


/-! ## Claims -/

/-- C1: for every Context, a successful `Load` (name check enabled)
executes, in order, the test-database name check, then inside a single
referential-integrity bracket, for each fixture file in set order the
unconditional `DELETE FROM` of the quoted table followed — inside the
per-table `whileInsertOnTable` bracket — by one INSERT per record of that
file; no fixture's inserts precede its delete and fixture i+1 follows
fixture i completely. -/
theorem spec_C1 (c : Context) (m : String → Bool) (exec : ExecOracle)
    (tr : List Event) (hL : c.Load false m exec = (tr, none)) :
    tr = expectedLoadTrace exec c :=
  load_ok_trace c m exec tr hL

theorem spec_C1_witness :
    wCtx.Load false (fun _ => true) wExec = (wTrace, none)
    ∧ wTrace = expectedLoadTrace wExec wCtx :=
  ⟨rfl, spec_C1 wCtx (fun _ => true) wExec wTrace rfl⟩

/-- C2: when `Load` (name check enabled and passing) fails, the fixture
set splits at a first failing file: all earlier files processed fully and
successfully, the returned error is the failing file's first error, the
trace contains nothing of any later file, and the failing file's inserted
records form a prefix of its record list. -/
theorem spec_C2 (c : Context) (m : String → Bool) (exec : ExecOracle)
    (tr : List Event) (e : LoadError)
    (hL : c.Load false m exec = (tr, some e))
    (hm : m c.helper.databaseName = true) :
    ∃ pre fi post trF,
      c.fixturesFiles = pre ++ fi :: post ∧
      (∀ g ∈ pre, (processFile exec c.helper g).2 = none) ∧
      processFile exec c.helper fi = (trF, some e) ∧
      tr = Event.dbNameCheck c.helper.databaseName :: Event.beginIntegrity ::
        ((pre.flatMap (expectedFileTrace exec c.helper) ++ trF)
          ++ [Event.endIntegrity]) ∧
      ∃ k, trF.filter Event.isInsert
        = ((itemsOf fi).map (itemInsertEvent c.helper fi)).take k := by
  rw [load_eq_checked c m exec hm] at hL
  have htr := congrArg Prod.fst hL
  have hres := congrArg Prod.snd hL
  simp only at htr hres
  obtain ⟨pre, fi, post, trF, hfiles, hpre, hfi, htr2⟩ :=
    processFiles_fail exec c.helper c.fixturesFiles
      (processFiles exec c.helper c.fixturesFiles).1 e (Prod.ext rfl hres)
  refine ⟨pre, fi, post, trF, hfiles, hpre, hfi, ?_,
    processFile_fail_inserts exec c.helper fi trF e hfi⟩
  rw [← htr, htr2]

theorem spec_C2_witness :
    wCtx.Load false (fun _ => true) wExecFail
      = ([Event.dbNameCheck "db_test", Event.beginIntegrity,
          Event.execDelete "posts" "DELETE FROM <posts>",
          Event.endIntegrity],
         some (LoadError.dbError 3))
    ∧ (∃ pre fi post trF,
        wCtx.fixturesFiles = pre ++ fi :: post ∧
        (∀ g ∈ pre, (processFile wExecFail wCtx.helper g).2 = none) ∧
        processFile wExecFail wCtx.helper fi = (trF, some (LoadError.dbError 3)) ∧
        [Event.dbNameCheck "db_test", Event.beginIntegrity,
         Event.execDelete "posts" "DELETE FROM <posts>",
         Event.endIntegrity]
          = Event.dbNameCheck wCtx.helper.databaseName :: Event.beginIntegrity ::
            ((pre.flatMap (expectedFileTrace wExecFail wCtx.helper) ++ trF)
              ++ [Event.endIntegrity]) ∧
        ∃ k, trF.filter Event.isInsert
          = ((itemsOf fi).map (itemInsertEvent wCtx.helper fi)).take k) :=
  ⟨rfl, spec_C2 wCtx (fun _ => true) wExecFail
    [Event.dbNameCheck "db_test", Event.beginIntegrity,
     Event.execDelete "posts" "DELETE FROM <posts>", Event.endIntegrity]
    (LoadError.dbError 3) rfl rfl⟩

/-- C3: with the process-wide skip flag false and a non-matching database
name, `Load` returns the distinguished not-a-test-database error having
executed no delete or insert statement; with the skip flag true the name
check is bypassed entirely (the outcome does not depend on the matcher at
all). -/
theorem spec_C3 (c : Context) (m : String → Bool) (exec : ExecOracle) :
    (m c.helper.databaseName = false →
      c.Load false m exec
        = ([Event.dbNameCheck c.helper.databaseName],
           some LoadError.errNotTestDatabase) ∧
      (c.Load false m exec).1.filter Event.isExec = []) ∧
    (∀ m2 : String → Bool, c.Load true m exec = c.Load true m2 exec) := by
  constructor
  · intro hm
    refine ⟨load_eq_checkFail c m exec hm, ?_⟩
    rw [load_eq_checkFail c m exec hm]
    rfl
  · intro m2
    rfl

theorem spec_C3_witness :
    ((fun _ => false) : String → Bool) wCtx.helper.databaseName = false
    ∧ (wCtx.Load false (fun _ => false) wExec
        = ([Event.dbNameCheck wCtx.helper.databaseName],
           some LoadError.errNotTestDatabase)
       ∧ (wCtx.Load false (fun _ => false) wExec).1.filter Event.isExec = [])
    ∧ wCtx.Load true (fun _ => true) wExec
        = wCtx.Load true (fun _ => false) wExec :=
  ⟨rfl, (spec_C3 wCtx (fun _ => false) wExec).1 rfl,
    (spec_C3 wCtx (fun _ => true) wExec).2 (fun _ => false)⟩

/-- C4: on a record whose keys are all strings (and whose first quoted
column is non-empty, as dialect quoting guarantees), `buildInsertSQL`
returns exactly `INSERT INTO <quoted-table> (<columns>) VALUES
(<placeholders>)` with the i-th quoted column, the i-th 1-based
placeholder and the i-th returned value all coming from the i-th pair. -/
theorem spec_C4 (h : Helper) (f : fixtureFile) (pairs : List (String × Value))
    (hq : ∀ p ∈ pairs.take 1, 0 < (h.quoteKeyword p.1).length) :
    f.buildInsertSQL h (strRecord pairs) =
      .ok ("INSERT INTO " ++ h.quoteKeyword f.fileNameWithoutExtension ++
            " (" ++ commaJoin (pairs.map (fun p => h.quoteKeyword p.1)) ++
            ") VALUES (" ++
            commaJoin (placeholdersFrom h.paramType 1 (pairs.map Prod.snd)) ++
            ")",
           pairs.map Prod.snd) :=
  buildInsertSQL_strRecord h f pairs hq

theorem spec_C4_witness :
    (∀ p ∈ wPairs.take 1, 0 < (wHelper.quoteKeyword p.1).length)
    ∧ wFile.buildInsertSQL wHelper (strRecord wPairs) =
      .ok ("INSERT INTO " ++ wHelper.quoteKeyword wFile.fileNameWithoutExtension ++
            " (" ++ commaJoin (wPairs.map (fun p => wHelper.quoteKeyword p.1)) ++
            ") VALUES (" ++
            commaJoin (placeholdersFrom wHelper.paramType 1 (wPairs.map Prod.snd)) ++
            ")",
           wPairs.map Prod.snd) :=
  ⟨by decide, spec_C4 wHelper wFile wPairs (by decide)⟩

/-- C5: after a successful `Load`, the trace's effect on any target table
erases that table's prior contents, so replaying the same load (its trace
is a deterministic function of the same inputs) leaves every target table
with identical final contents. -/
theorem spec_C5 (c : Context) (m : String → Bool) (exec : ExecOracle)
    (tr : List Event) (f : fixtureFile)
    (hL : c.Load false m exec = (tr, none)) (hf : f ∈ c.fixturesFiles)
    (s : DbState) :
    applyEvents (applyEvents s tr) tr f.fileNameWithoutExtension
      = applyEvents s tr f.fileNameWithoutExtension := by
  have htr := load_ok_trace c m exec tr hL
  have hdel : ∃ sql, Event.execDelete f.fileNameWithoutExtension sql ∈ tr := by
    refine ⟨"DELETE FROM " ++ c.helper.quoteKeyword f.fileNameWithoutExtension, ?_⟩
    rw [htr, expectedLoadTrace]
    refine List.mem_cons_of_mem _ (List.mem_cons_of_mem _
      (List.mem_append_left _ ?_))
    exact List.mem_flatMap.mpr ⟨f, hf, List.mem_cons_self _ _⟩
  rw [applyEvents_tableContents, applyEvents_tableContents]
  exact tableContents_indep _ tr hdel _ _

theorem spec_C5_witness :
    wCtx.Load false (fun _ => true) wExec = (wTrace, none)
    ∧ wFile ∈ wCtx.fixturesFiles
    ∧ applyEvents (applyEvents (fun _ => []) wTrace) wTrace
        wFile.fileNameWithoutExtension
      = applyEvents (fun _ => []) wTrace wFile.fileNameWithoutExtension :=
  ⟨rfl, List.mem_cons_self wFile [],
    spec_C5 wCtx (fun _ => true) wExec wTrace wFile rfl
      (List.mem_cons_self wFile []) (fun _ => [])⟩

/-- C6 (counterexample): the table name is not always the file name with
its extension stripped — the code removes the first occurrence of the
extension string, so "a.ymlb.yml" yields "ab.yml" rather than "a.ymlb". -/
theorem spec_C6_counterexample :
    (fixtureFile.mk "a.ymlb.yml" (YamlNode.seq [])).fileNameWithoutExtension
      = "ab.yml"
    ∧ stripExtSpec "a.ymlb.yml" = "a.ymlb"
    ∧ (fixtureFile.mk "a.ymlb.yml" (YamlNode.seq [])).fileNameWithoutExtension
      ≠ stripExtSpec "a.ymlb.yml" :=
  ⟨by decide, by decide, by decide⟩

/-- C6 (amended): the table name equals the file name with the first
occurrence of its extension string removed; whenever the extension string
does not occur starting anywhere before the final-extension position, this
coincides with stripping the extension. -/
theorem spec_C6_amended (f : fixtureFile) (stem : List Char)
    (hdecomp : f.fileName.data = stem ++ (filepathExt f.fileName).data)
    (hocc : ∀ i, i < stem.length →
      (filepathExt f.fileName).data.isPrefixOf (f.fileName.data.drop i)
        = false) :
    f.fileNameWithoutExtension = stripExtSpec f.fileName := by
  unfold fixtureFile.fileNameWithoutExtension stringsReplaceOnce stripExtSpec
  congr 1
  rw [show ("" : String).data = ([] : List Char) from rfl, hdecomp,
    replaceFirst_stem _ stem (fun i hi => by rw [← hdecomp]; exact hocc i hi),
    List.length_append, Nat.add_sub_cancel, List.take_left]

theorem spec_C6_amended_witness :
    ("posts.yml" : String).data = "posts".data ++ (filepathExt "posts.yml").data
    ∧ (∀ i, i < ("posts".data).length →
        (filepathExt "posts.yml").data.isPrefixOf
          (("posts.yml" : String).data.drop i) = false)
    ∧ (fixtureFile.mk "posts.yml" (YamlNode.seq [])).fileNameWithoutExtension
      = stripExtSpec "posts.yml" :=
  ⟨by decide, by decide,
    spec_C6_amended (fixtureFile.mk "posts.yml" (YamlNode.seq []))
      ("posts".data) (by decide) (by decide)⟩

/-- C7: under the colon placeholder style, each placeholder is the bare
`:i` or a `to_date` cast with the mask matching the recognized shape, the
datetime check taking precedence over the date-only and time-only ones;
the placeholders embedded by `buildInsertSQL` are exactly these. -/
theorem spec_C7 (h : Helper) (f : fixtureFile) (pairs : List (String × Value))
    (hpt : h.paramType = ParamType.paramTypeColon)
    (hq : ∀ p ∈ pairs.take 1, 0 < (h.quoteKeyword p.1).length) :
    f.buildInsertSQL h (strRecord pairs) =
      .ok ("INSERT INTO " ++ h.quoteKeyword f.fileNameWithoutExtension ++
            " (" ++ commaJoin (pairs.map (fun p => h.quoteKeyword p.1)) ++
            ") VALUES (" ++
            commaJoin (placeholdersFrom ParamType.paramTypeColon 1
              (pairs.map Prod.snd)) ++ ")",
           pairs.map Prod.snd)
    ∧ (∀ (i : Nat) (v : Value), isDateTime v = true →
        placeholderSpec ParamType.paramTypeColon i v
          = "to_date(:" ++ toString i ++ ", \x27YYYY-MM-DD HH24:MI:SS\x27)")
    ∧ (∀ (i : Nat) (v : Value), isDateTime v = false → isDate v = true →
        placeholderSpec ParamType.paramTypeColon i v
          = "to_date(:" ++ toString i ++ ", \x27YYYY-MM-DD\x27)")
    ∧ (∀ (i : Nat) (v : Value), isDateTime v = false → isDate v = false →
        isTime v = true →
        placeholderSpec ParamType.paramTypeColon i v
          = "to_date(:" ++ toString i ++ ", \x27HH24:MI:SS\x27)")
    ∧ (∀ (i : Nat) (v : Value), isDateTime v = false → isDate v = false →
        isTime v = false →
        placeholderSpec ParamType.paramTypeColon i v = ":" ++ toString i) := by
  refine ⟨?_, ?_, ?_, ?_, ?_⟩
  · have hb := buildInsertSQL_strRecord h f pairs hq
    rw [hpt] at hb
    exact hb
  · intro i v hdt
    simp [placeholderSpec, hdt]
  · intro i v hdt hd
    simp [placeholderSpec, hdt, hd]
  · intro i v hdt hd ht
    simp [placeholderSpec, hdt, hd, ht]
  · intro i v hdt hd ht
    simp [placeholderSpec, hdt, hd, ht]

theorem spec_C7_witness :
    wColonHelper.paramType = ParamType.paramTypeColon
    ∧ (∀ p ∈ ([("id", wDT)] : List (String × Value)).take 1,
        0 < (wColonHelper.quoteKeyword p.1).length)
    ∧ wFile.buildInsertSQL wColonHelper (strRecord [("id", wDT)]) =
      .ok ("INSERT INTO " ++
            wColonHelper.quoteKeyword wFile.fileNameWithoutExtension ++
            " (" ++ commaJoin (([("id", wDT)] : List (String × Value)).map
              (fun p => wColonHelper.quoteKeyword p.1)) ++
            ") VALUES (" ++
            commaJoin (placeholdersFrom ParamType.paramTypeColon 1
              (([("id", wDT)] : List (String × Value)).map Prod.snd)) ++ ")",
           ([("id", wDT)] : List (String × Value)).map Prod.snd)
    ∧ placeholderSpec ParamType.paramTypeColon 1 wDT
        = "to_date(:" ++ toString 1 ++ ", \x27YYYY-MM-DD HH24:MI:SS\x27)"
    ∧ placeholderSpec ParamType.paramTypeColon 2 wD
        = "to_date(:" ++ toString 2 ++ ", \x27YYYY-MM-DD\x27)"
    ∧ placeholderSpec ParamType.paramTypeColon 3 wT
        = "to_date(:" ++ toString 3 ++ ", \x27HH24:MI:SS\x27)"
    ∧ placeholderSpec ParamType.paramTypeColon 4 wValue
        = ":" ++ toString 4 :=
  ⟨rfl, by decide,
    (spec_C7 wColonHelper wFile [("id", wDT)] rfl (by decide)).1,
    (spec_C7 wColonHelper wFile [("id", wDT)] rfl (by decide)).2.1 1 wDT rfl,
    (spec_C7 wColonHelper wFile [("id", wDT)] rfl (by decide)).2.2.1 2 wD rfl rfl,
    (spec_C7 wColonHelper wFile [("id", wDT)] rfl (by decide)).2.2.2.1 3 wT rfl rfl rfl,
    (spec_C7 wColonHelper wFile [("id", wDT)] rfl (by decide)).2.2.2.2 4 wValue rfl rfl rfl⟩

/-- C8: a record containing a non-string key makes `buildInsertSQL` fail
with `ErrKeyIsNotString`, and the insert loop executes no INSERT for that
record (nor for anything after it), keeping only the earlier items'
trace. -/
theorem spec_C8 (h : Helper) (f : fixtureFile) (record : List (Key × Value))
    (tag : Nat) (hmem : Key.nonStr tag ∈ record.map Prod.fst) :
    f.buildInsertSQL h record = .error LoadError.errKeyIsNotString
    ∧ ∀ (exec : ExecOracle) (items1 items2 : List YamlItem) (tr1 : List Event),
        insertItems f exec h items1 = (tr1, none) →
        insertItems f exec h (items1 ++ YamlItem.record record :: items2)
          = (tr1, some LoadError.errKeyIsNotString) := by
  have hb := buildInsertSQL_nonstr h f record tag hmem
  exact ⟨hb, fun exec items1 items2 tr1 h1 =>
    insertItems_append_fail f exec h record _ hb items1 items2 tr1 h1⟩

theorem spec_C8_witness :
    Key.nonStr 0 ∈ wBadRecord.map Prod.fst
    ∧ wFile.buildInsertSQL wHelper wBadRecord
        = .error LoadError.errKeyIsNotString
    ∧ insertItems wFile wExec wHelper
        ([] ++ YamlItem.record wBadRecord :: [])
        = ([], some LoadError.errKeyIsNotString) :=
  ⟨by decide, (spec_C8 wHelper wFile wBadRecord 0 (by decide)).1,
    (spec_C8 wHelper wFile wBadRecord 0 (by decide)).2 wExec [] [] [] rfl⟩

/-- C9: a fixture file whose parsed top-level content is neither a
sequence nor a mapping (a plain scalar) makes `insert` fail with
`ErrFileIsNotSliceOrMap` and execute no INSERT at all (its trace is
empty). -/
theorem spec_C9 (f : fixtureFile) (exec : ExecOracle) (h : Helper) (v : Value)
    (hc : f.content = YamlNode.scalar v) :
    f.insert exec h = ([], some LoadError.errFileIsNotSliceOrMap) :=
  insert_scalar f exec h v hc

theorem spec_C9_witness :
    wScalarFile.content = YamlNode.scalar wValue
    ∧ wScalarFile.insert wExec wHelper
        = ([], some LoadError.errFileIsNotSliceOrMap) :=
  ⟨rfl, spec_C9 wScalarFile wExec wHelper wValue rfl⟩

/-- C10: the empty record compiles without error to
`INSERT INTO <quoted-table> () VALUES ()` with an empty values slice. -/
theorem spec_C10 (h : Helper) (f : fixtureFile) :
    f.buildInsertSQL h ([] : List (Key × Value)) =
      .ok ("INSERT INTO " ++ h.quoteKeyword f.fileNameWithoutExtension ++
            " () VALUES ()", ([] : List Value)) := by
  show Except.ok
      ("INSERT INTO " ++ h.quoteKeyword f.fileNameWithoutExtension ++
        " (" ++ "" ++ ") VALUES (" ++ "" ++ ")", ([] : List Value)) = _
  rw [strAppendEmpty, strAppendEmpty,
    strAppendAssoc
      ("INSERT INTO " ++ h.quoteKeyword f.fileNameWithoutExtension ++ " (")
      ") VALUES (" ")",
    show (") VALUES (" : String) ++ ")" = ") VALUES ()" from rfl,
    strAppendAssoc ("INSERT INTO " ++ h.quoteKeyword f.fileNameWithoutExtension)
      " (" ") VALUES ()",
    show (" (" : String) ++ ") VALUES ()" = " () VALUES ()" from rfl]
